import Mathlib

/-!
Verification of the REINFORCE policy-gradient notebook
(`8_Reinforcement/8.3-EXE_Policy_Gradient.ipynb`).

The notebook's algorithmic kernel is embedded shallowly:
* `compute_returns` — the discounted-return calculator (numpy backward loop),
  with the empty-input `IndexError` modelled by `Option`;
* `PolicyNet.loss` — the REINFORCE surrogate loss
  `-torch.mean(torch.mul(torch.log(a_probs), returns))`;
* `collectRollout` — the rollout-collection inner loop of the training cell;
* `runTrainingCell` — the `try/except KeyboardInterrupt` control flow of the
  training cell, at episode granularity.

Machine floats are modelled by exact rationals `ℚ`.
-/

namespace PolicyGradient

/-- One iteration of the backward loop body
`returns[t] = rewards[t] + discount_factor * returns[t+1]`.
In every actual call both indices are in bounds, so `getD _ 0` coincides
with the numpy read. -/
def returnsBody (rewards : List ℚ) (discount_factor : ℚ) (ret : List ℚ) (t : Nat) :
    List ℚ :=
  ret.set t (rewards.getD t 0 + discount_factor * ret.getD (t + 1) 0)

/-- The loop `for t in reversed(range(j)): returns[t] = rewards[t] + γ*returns[t+1]`,
processing `t = j-1, j-2, …, 0` starting from array state `ret`. -/
def returnsLoop (rewards : List ℚ) (discount_factor : ℚ) (j : Nat) (ret : List ℚ) :
    List ℚ :=
  (List.range j).reverse.foldl (returnsBody rewards discount_factor) ret

/-- Embedding of the notebook's

```python
def compute_returns(rewards, discount_factor):
    returns = np.zeros(len(rewards))
    returns[-1] = rewards[-1]
    for t in reversed(range(len(rewards)-1)):
        returns[t] = rewards[t] + discount_factor * returns[t+1]
    return returns
```

For an empty `rewards`, `rewards[-1]` raises `IndexError`; that abnormal exit
is modelled by `none` (`List.getLast?` returns `none` exactly then). -/
def compute_returns (rewards : List ℚ) (discount_factor : ℚ) : Option (List ℚ) :=
  let returns := List.replicate rewards.length (0 : ℚ)
  match rewards.getLast? with
  | none => none
  | some rlast =>
    let returns := returns.set (rewards.length - 1) rlast
    some (returnsLoop rewards discount_factor (rewards.length - 1) returns)

theorem returnsBody_length (R : List ℚ) (γ : ℚ) (s : List ℚ) (t : Nat) :
    (returnsBody R γ s t).length = s.length := by
  simp [returnsBody]

theorem returnsLoop_succ (R : List ℚ) (γ : ℚ) (j : Nat) (s : List ℚ) :
    returnsLoop R γ (j + 1) s = returnsLoop R γ j (returnsBody R γ s j) := by
  simp [returnsLoop, List.range_succ]

theorem returnsLoop_length (R : List ℚ) (γ : ℚ) (j : Nat) (s : List ℚ) :
    (returnsLoop R γ j s).length = s.length := by
  induction j generalizing s with
  | zero => rfl
  | succ j ih => rw [returnsLoop_succ, ih, returnsBody_length]

/-- Positions at or above `j` are not touched by the loop over `t = j-1, …, 0`. -/
theorem returnsLoop_getD_of_le (R : List ℚ) (γ : ℚ) (j : Nat) (s : List ℚ)
    (i : Nat) (h : j ≤ i) :
    (returnsLoop R γ j s).getD i 0 = s.getD i 0 := by
  induction j generalizing s with
  | zero => rfl
  | succ j ih =>
    rw [returnsLoop_succ, ih _ (Nat.le_of_succ_le h)]
    have hji : j ≠ i := by omega
    simp [returnsBody, List.getD_eq_getElem?_getD, List.getElem?_set_ne hji]

/-- Loop invariant: after running the backward loop from `t = j-1` down to `0`,
every processed position satisfies the return recurrence. -/
theorem returnsLoop_recurrence (R : List ℚ) (γ : ℚ) :
    ∀ (j : Nat) (s : List ℚ), j < s.length → ∀ t, t < j →
      (returnsLoop R γ j s).getD t 0 =
        R.getD t 0 + γ * (returnsLoop R γ j s).getD (t + 1) 0 := by
  intro j
  induction j with
  | zero => intro s _ t ht; omega
  | succ j ih =>
    intro s hj t ht
    rw [returnsLoop_succ]
    rcases Nat.lt_or_ge t j with htj | htj
    · exact ih (returnsBody R γ s j) (by rw [returnsBody_length]; omega) t htj
    · have htj' : t = j := by omega
      subst htj'
      rw [returnsLoop_getD_of_le R γ t _ t le_rfl,
        returnsLoop_getD_of_le R γ t _ (t + 1) (by omega)]
      have hlt : t < s.length := by omega
      simp [returnsBody, List.getD_eq_getElem?_getD,
        List.getElem?_set_eq_of_lt _ hlt, List.getElem?_set_ne (by omega : t ≠ t + 1)]

/-- Characterisation of `compute_returns` on non-empty input: it succeeds, and
the produced array has the input's length, ends with the last reward, and
satisfies the backward return recurrence. -/
theorem compute_returns_char (R : List ℚ) (γ : ℚ) (hR : R ≠ []) :
    ∃ G, compute_returns R γ = some G ∧ G.length = R.length ∧
      G.getD (R.length - 1) 0 = R.getD (R.length - 1) 0 ∧
      ∀ t, t < R.length - 1 → G.getD t 0 = R.getD t 0 + γ * G.getD (t + 1) 0 := by
  have hlen : 0 < R.length := List.length_pos.mpr hR
  have hidx : R.length - 1 < R.length := by omega
  have hlast : R.getLast? = some (R.getD (R.length - 1) 0) := by
    rw [List.getLast?_eq_getElem? R, List.getElem?_eq_getElem hidx,
      List.getD_eq_getElem R 0 hidx]
  refine ⟨returnsLoop R γ (R.length - 1)
      ((List.replicate R.length (0 : ℚ)).set (R.length - 1) (R.getD (R.length - 1) 0)),
    ?_, ?_, ?_, ?_⟩
  · simp only [compute_returns, hlast]
  · rw [returnsLoop_length]; simp
  · rw [returnsLoop_getD_of_le R γ (R.length - 1) _ (R.length - 1) le_rfl]
    have hrep : (List.replicate R.length (0 : ℚ)).length = R.length := by simp
    simp [List.getD_eq_getElem?_getD,
      List.getElem?_set_eq_of_lt _ (by rw [hrep]; exact hidx)]
  · intro t ht
    exact returnsLoop_recurrence R γ (R.length - 1) _ (by simp; omega) t ht

/-- Peeling one element off a suffix sum, read through `getD`. -/
theorem sum_drop_eq (l : List ℚ) (t : Nat) (h : t < l.length) :
    (l.drop t).sum = l.getD t 0 + (l.drop (t + 1)).sum := by
  rw [List.drop_eq_getElem_cons h, List.sum_cons, List.getD_eq_getElem l 0 h]

/-- C1: for every reward sequence `R` of length `N ≥ 1` and every discount
factor `γ ∈ [0, 1]`, `compute_returns R γ` returns a sequence `G` of the same
length `N` with `G[N-1] = R[N-1]` and `G[t] = R[t] + γ * G[t+1]` for `t < N-1`. -/
theorem compute_returns_spec (R : List ℚ) (γ : ℚ) (hR : 1 ≤ R.length)
    (hγ0 : 0 ≤ γ) (hγ1 : γ ≤ 1) :
    ∃ G, compute_returns R γ = some G ∧ G.length = R.length ∧
      G.getD (R.length - 1) 0 = R.getD (R.length - 1) 0 ∧
      ∀ t, t < R.length - 1 → G.getD t 0 = R.getD t 0 + γ * G.getD (t + 1) 0 :=
  compute_returns_char R γ (List.length_pos.mp (by omega))

/-- Witness for C1 at `R = [1, 2]`, `γ = 1/2`. -/
theorem compute_returns_spec_witness :
    1 ≤ ([1, 2] : List ℚ).length ∧ (0 : ℚ) ≤ 1/2 ∧ (1/2 : ℚ) ≤ 1 ∧
      (∃ G, compute_returns [1, 2] (1/2) = some G ∧
        G.length = ([1, 2] : List ℚ).length ∧
        G.getD (([1, 2] : List ℚ).length - 1) 0 =
          ([1, 2] : List ℚ).getD (([1, 2] : List ℚ).length - 1) 0 ∧
        ∀ t, t < ([1, 2] : List ℚ).length - 1 →
          G.getD t 0 = ([1, 2] : List ℚ).getD t 0 + 1/2 * G.getD (t + 1) 0) :=
  ⟨by decide, by norm_num, by norm_num,
    compute_returns_spec [1, 2] (1/2) (by decide) (by norm_num) (by norm_num)⟩

/-- C6: with `γ = 1`, the first return is the sum of all rewards. -/
theorem compute_returns_undiscounted (R : List ℚ) (hR : R ≠ []) :
    ∃ G, compute_returns R 1 = some G ∧ G.getD 0 0 = R.sum := by
  obtain ⟨G, hG, hlen, hlast, hrec⟩ := compute_returns_char R 1 hR
  have hlen0 : 0 < R.length := List.length_pos.mpr hR
  have key : ∀ k, k < R.length →
      G.getD (R.length - 1 - k) 0 = (R.drop (R.length - 1 - k)).sum := by
    intro k
    induction k with
    | zero =>
      intro _
      rw [Nat.sub_zero, hlast, sum_drop_eq R _ (by omega),
        List.drop_eq_nil_of_le (by omega : R.length ≤ R.length - 1 + 1)]
      simp
    | succ k ih =>
      intro hk
      have h1 : R.length - 1 - (k + 1) < R.length - 1 := by omega
      have h2 : R.length - 1 - (k + 1) + 1 = R.length - 1 - k := by omega
      rw [hrec _ h1, one_mul, h2, ih (by omega), ← h2,
        ← sum_drop_eq R _ (by omega)]
  have h0 := key (R.length - 1) (by omega)
  rw [(by omega : R.length - 1 - (R.length - 1) = 0)] at h0
  exact ⟨G, hG, by rw [h0]; simp⟩

/-- Witness for C6 at `R = [1, 2, 3]`. -/
theorem compute_returns_undiscounted_witness :
    ([1, 2, 3] : List ℚ) ≠ [] ∧
      ∃ G, compute_returns [1, 2, 3] 1 = some G ∧
        G.getD 0 0 = ([1, 2, 3] : List ℚ).sum :=
  ⟨by decide, compute_returns_undiscounted [1, 2, 3] (by decide)⟩

/-- C7: with `γ = 0`, the returns equal the rewards element-wise. -/
theorem compute_returns_gamma0 (R : List ℚ) (hR : R ≠ []) :
    compute_returns R 0 = some R := by
  obtain ⟨G, hG, hlen, hlast, hrec⟩ := compute_returns_char R 0 hR
  have hGR : G = R := by
    apply List.ext_getElem hlen
    intro i h₁ h₂
    have hD : G.getD i 0 = R.getD i 0 := by
      rcases Nat.lt_or_ge i (R.length - 1) with hi | hi
      · rw [hrec i hi, zero_mul, add_zero]
      · have : i = R.length - 1 := by omega
        rw [this, hlast]
    rwa [List.getD_eq_getElem G 0 h₁, List.getD_eq_getElem R 0 h₂] at hD
  rw [hG, hGR]

/-- Witness for C7 at `R = [2, 7]`. -/
theorem compute_returns_gamma0_witness :
    ([2, 7] : List ℚ) ≠ [] ∧ compute_returns [2, 7] 0 = some [2, 7] :=
  ⟨by decide, compute_returns_gamma0 [2, 7] (by decide)⟩

/-- C9: `compute_returns` is a pure function of its two arguments — two calls
on identical inputs yield identical outputs. -/
theorem compute_returns_deterministic (R₁ R₂ : List ℚ) (γ₁ γ₂ : ℚ)
    (hR : R₁ = R₂) (hγ : γ₁ = γ₂) :
    compute_returns R₁ γ₁ = compute_returns R₂ γ₂ := by
  rw [hR, hγ]

/-- Witness for C9 at `R = [1]`, `γ = 1/2`. -/
theorem compute_returns_deterministic_witness :
    ([1] : List ℚ) = [1] ∧ (1/2 : ℚ) = 1/2 ∧
      compute_returns [1] (1/2) = compute_returns [1] (1/2) :=
  ⟨rfl, rfl, compute_returns_deterministic [1] [1] (1/2) (1/2) rfl rfl⟩

/-- C10: on the empty reward sequence the source raises `IndexError` at
`returns[-1] = rewards[-1]` (modelled by `none`): no return value is
produced, in particular not an empty array. -/
theorem compute_returns_empty_raises (γ : ℚ) :
    compute_returns [] γ = none := rfl

/-- Concrete evaluation of `compute_returns` on the spec's example rewards
with `γ = 9/10`, kept exactly in `ℚ`. -/
theorem compute_returns_gamma09_eval :
    compute_returns [0, 1, 1, 1, 0, 1, 1, 0, 0, 0] (9/10) =
      some [3560931/1000000, 395659/100000, 32851/10000, 2539/1000, 171/100,
        19/10, 1, 0, 0, 0] := by
  norm_num [compute_returns, returnsLoop, returnsBody, List.range_succ,
    List.replicate_succ, List.set_cons_zero, List.set_cons_succ]

/-- C2 counterexample: on `R = [0,1,1,1,0,1,1,0,0,0]` with `γ = 9/10` the
computed `G[0]` is `3.560931`, which is not approximately `3.10` — it is not
even within `0.4` of `3.10`. -/
theorem compute_returns_gamma09_counterexample :
    ¬ ∃ G, compute_returns [0, 1, 1, 1, 0, 1, 1, 0, 0, 0] (9/10) = some G ∧
        |G.getD 0 0 - 31/10| ≤ 2/5 := by
  rintro ⟨G, hG, habs⟩
  rw [compute_returns_gamma09_eval] at hG
  cases hG
  rw [abs_le] at habs
  norm_num at habs

/-- C2 amended: `G[8] = 0`, `G[7] = 0`, `G[6] = 1`, `G[5] = 1.9` as the spec
says, but the recurrence continues backward to `G[0] = 3.560931 ≈ 3.56`. -/
theorem compute_returns_gamma09_example :
    ∃ G, compute_returns [0, 1, 1, 1, 0, 1, 1, 0, 0, 0] (9/10) = some G ∧
      G.getD 8 0 = 0 ∧ G.getD 7 0 = 0 ∧ G.getD 6 0 = 1 ∧ G.getD 5 0 = 19/10 ∧
      G.getD 0 0 = 3560931/1000000 := by
  refine ⟨_, compute_returns_gamma09_eval, ?_, ?_, ?_, ?_, ?_⟩ <;> norm_num

/-- C8: on `R = [0,1,1,1,0,1,1,0,0,0]` with `γ = 1`, the returns are exactly
`[5, 5, 4, 3, 2, 2, 1, 0, 0, 0]`, and `G[0]` equals the total reward `5`. -/
theorem compute_returns_gamma1_example :
    compute_returns [0, 1, 1, 1, 0, 1, 1, 0, 0, 0] 1 =
      some [5, 5, 4, 3, 2, 2, 1, 0, 0, 0] ∧
    ([5, 5, 4, 3, 2, 2, 1, 0, 0, 0] : List ℚ).getD 0 0 = 5 ∧
    ([0, 1, 1, 1, 0, 1, 1, 0, 0, 0] : List ℚ).sum = 5 := by
  refine ⟨?_, by norm_num, by norm_num⟩
  norm_num [compute_returns, returnsLoop, returnsBody, List.range_succ,
    List.replicate_succ, List.set_cons_zero, List.set_cons_succ]

/-- Elementwise product `torch.mul` of two 1-D tensors. -/
def torchMul (a b : List ℚ) : List ℚ := List.zipWith (fun x y => x * y) a b

/-- `torch.mean` of a 1-D tensor: sum divided by the number of elements
(in `ℚ`, the empty mean degenerates to `0/0 = 0`). -/
def torchMean (a : List ℚ) : ℚ := a.sum / a.length

/-- Embedding of the notebook's

```python
def loss(self, action_probabilities, returns):
    return -torch.mean(torch.mul(torch.log(action_probabilities), returns))
```

`torch.log` applies a scalar logarithm elementwise; since the claim only
concerns the arithmetic shape of the loss, the scalar logarithm is an
arbitrary parameter `log : ℚ → ℚ` rather than the transcendental function. -/
def PolicyNet.loss (log : ℚ → ℚ) (action_probabilities returns : List ℚ) : ℚ :=
  -(torchMean (torchMul (action_probabilities.map log) returns))

theorem sum_zipWith_mul_map (log : ℚ → ℚ) :
    ∀ (a b : List ℚ), a.length = b.length →
      (torchMul (a.map log) b).sum =
        ∑ t ∈ Finset.range a.length, log (a.getD t 0) * b.getD t 0 := by
  intro a
  induction a with
  | nil => intro b _; simp [torchMul]
  | cons x xs ih =>
    intro b hb
    cases b with
    | nil => simp at hb
    | cons y ys =>
      simp only [List.length_cons] at hb
      simp only [torchMul, List.map_cons, List.zipWith_cons_cons, List.sum_cons,
        List.length_cons]
      rw [Finset.sum_range_succ' (fun t => log ((x :: xs).getD t 0) * (y :: ys).getD t 0)]
      simp only [List.getD_cons_succ, List.getD_cons_zero]
      have hxs := ih ys (by omega)
      simp only [torchMul] at hxs
      rw [hxs]
      ring

/-- C3: for equal-length, non-empty probability and return vectors, the loss
is the negative of the mean over all timesteps `t` of
`log (a_probs[t]) * returns[t]`. -/
theorem loss_is_neg_mean_log_prob_times_return (log : ℚ → ℚ)
    (a_probs returns : List ℚ) (hlen : a_probs.length = returns.length)
    (hne : a_probs ≠ []) :
    PolicyNet.loss log a_probs returns =
      -((∑ t ∈ Finset.range a_probs.length,
          log (a_probs.getD t 0) * returns.getD t 0) / a_probs.length) := by
  have hzl : (torchMul (a_probs.map log) returns).length = a_probs.length := by
    simp [torchMul, hlen]
  rw [PolicyNet.loss, torchMean, hzl, sum_zipWith_mul_map log a_probs returns hlen]

/-- Witness for C3 at `log x = x * x`, `a_probs = [2, 3]`, `returns = [5, 7]`. -/
theorem loss_is_neg_mean_witness :
    ([2, 3] : List ℚ).length = ([5, 7] : List ℚ).length ∧
      ([2, 3] : List ℚ) ≠ [] ∧
      PolicyNet.loss (fun x => x * x) [2, 3] [5, 7] =
        -((∑ t ∈ Finset.range ([2, 3] : List ℚ).length,
            (fun x : ℚ => x * x) (([2, 3] : List ℚ).getD t 0) *
              ([5, 7] : List ℚ).getD t 0) / ([2, 3] : List ℚ).length) :=
  ⟨by decide, by decide,
    loss_is_neg_mean_log_prob_times_return (fun x => x * x) [2, 3] [5, 7]
      (by decide) (by decide)⟩

/-- `rollout_limit = 500`, the configured maximum rollout length of the
training cell. -/
def rollout_limit : Nat := 500

/-- Embedding of the rollout-collection inner loop

```python
for j in range(rollout_limit):
    with torch.no_grad():
        a_prob = policy(torch.from_numpy(np.atleast_2d(s)).float())
        a = torch.multinomial(a_prob, num_samples=1).squeeze().numpy()
    s1, r, done, _ = env.step(a)
    rollout.append((s, a, r))
    s = s1
    if done: break
```

The categorical action sample together with `env.step` is abstracted into one
transition `stepSample : σ → α × σ × ℚ × Bool` returning
`(a, s1, r, done)`; the loop appends `(s, a, r)` and then breaks when `done`
is set, exactly as in the source. -/
def collectRollout {σ α : Type} (stepSample : σ → α × σ × ℚ × Bool) :
    Nat → σ → List (σ × α × ℚ)
  | 0, _ => []
  | fuel + 1, s =>
    match stepSample s with
    | (a, s1, r, d) =>
      (s, a, r) :: (if d then [] else collectRollout stepSample fuel s1)

/-- The environment state reached after `k` full steps of the rollout loop. -/
def stateAt {σ α : Type} (stepSample : σ → α × σ × ℚ × Bool) (s : σ) :
    Nat → σ
  | 0 => s
  | k + 1 => stateAt stepSample (stepSample s).2.1 k

/-- The `done` flag produced by step `k` of the rollout loop. -/
def doneAt {σ α : Type} (stepSample : σ → α × σ × ℚ × Bool) (s : σ)
    (k : Nat) : Bool :=
  (stepSample (stateAt stepSample s k)).2.2.2

theorem collectRollout_length_le {σ α : Type} (f : σ → α × σ × ℚ × Bool) :
    ∀ (fuel : Nat) (s : σ), (collectRollout f fuel s).length ≤ fuel := by
  intro fuel
  induction fuel with
  | zero => intro s; simp [collectRollout]
  | succ fuel ih =>
    intro s
    rcases hfs : f s with ⟨a, s1, r, d⟩
    simp only [collectRollout, hfs]
    cases d with
    | true => simp
    | false =>
      simp only [if_neg Bool.false_ne_true, List.length_cons]
      exact Nat.succ_le_succ (ih s1)

theorem collectRollout_stops_at_done {σ α : Type} (f : σ → α × σ × ℚ × Bool) :
    ∀ (m fuel : Nat) (s : σ), m < fuel →
      (∀ k, k < m → doneAt f s k = false) → doneAt f s m = true →
      (collectRollout f fuel s).length = m + 1 := by
  intro m
  induction m with
  | zero =>
    intro fuel s hf _ hd
    cases fuel with
    | zero => omega
    | succ fuel =>
      rcases hfs : f s with ⟨a, s1, r, d⟩
      have hdt : d = true := by simpa [doneAt, stateAt, hfs] using hd
      subst hdt
      simp [collectRollout, hfs]
  | succ m ih =>
    intro fuel s hf hb hd
    cases fuel with
    | zero => omega
    | succ fuel =>
      rcases hfs : f s with ⟨a, s1, r, d⟩
      have hdf : d = false := by
        simpa [doneAt, stateAt, hfs] using hb 0 (by omega)
      subst hdf
      have hshift : ∀ k, doneAt f s (k + 1) = doneAt f s1 k := by
        intro k; simp [doneAt, stateAt, hfs]
      simp only [collectRollout, hfs, if_neg Bool.false_ne_true, List.length_cons]
      rw [ih fuel s1 (by omega)
        (fun k hk => by rw [← hshift k]; exact hb (k + 1) (by omega))
        (by rw [← hshift m]; exact hd)]

/-- C5: in every training iteration the rollout loop appends at most
`rollout_limit = 500` triples, and it stops right after the first step whose
`done` flag is true, so the rollout length never exceeds the step limit. -/
theorem rollout_length_bounded {σ α : Type} (f : σ → α × σ × ℚ × Bool)
    (s : σ) :
    (collectRollout f rollout_limit s).length ≤ rollout_limit ∧
    ∀ m, m < rollout_limit → (∀ k, k < m → doneAt f s k = false) →
      doneAt f s m = true →
      (collectRollout f rollout_limit s).length = m + 1 :=
  ⟨collectRollout_length_le f rollout_limit s,
   fun m hm hb hd => collectRollout_stops_at_done f m rollout_limit s hm hb hd⟩

/-- Concrete environment for the C5 witness: the state counts steps, and the
episode terminates on the step taken from state `2`. -/
def stepSampleEx (s : Nat) : Nat × Nat × ℚ × Bool :=
  (0, s + 1, 1, decide (2 ≤ s))

/-- Witness for C5: with `stepSampleEx` the first `done` step is `m = 2`, so
the rollout has exactly `3` entries (and at most `rollout_limit`). -/
theorem rollout_length_bounded_witness :
    (collectRollout stepSampleEx rollout_limit 0).length ≤ rollout_limit ∧
      (collectRollout stepSampleEx rollout_limit 0).length = 2 + 1 :=
  ⟨(rollout_length_bounded stepSampleEx 0).1,
   (rollout_length_bounded stepSampleEx 0).2 2 (by decide) (by decide)
     (by decide)⟩

/-- Python exceptions as seen by the training cell: `KeyboardInterrupt` is the
only one it catches; any other exception (tagged by a code) propagates. -/
inductive PyExc where
  | keyboardInterrupt : PyExc
  | other : Nat → PyExc
deriving DecidableEq

/-- The two metric lists the training cell accumulates. -/
structure TrainMetrics where
  training_rewards : List ℚ
  losses : List ℚ
deriving DecidableEq

/-- The episode loop `for i in range(num_episodes)` of the training cell, at
episode granularity: each episode either completes — appending
`sum(rewards)` to `training_rewards` and `loss.item()` to `losses` — or an
exception escapes from it, leaving the loop with the metrics collected so
far. -/
def trainEpisodes :
    TrainMetrics → List (Except PyExc (ℚ × ℚ)) → TrainMetrics × Option PyExc
  | m, [] => (m, none)
  | m, Except.ok (r, l) :: rest =>
      trainEpisodes ⟨m.training_rewards ++ [r], m.losses ++ [l]⟩ rest
  | m, Except.error e :: _ => (m, some e)

/-- The `try/except KeyboardInterrupt` wrapper of the training cell:
`training_rewards, losses = [], []` followed by the episode loop; the handler
catches exactly `KeyboardInterrupt` (printing `interrupt` and falling
through), while every other exception propagates.  The metric lists survive
either way because they outlive the `try` block. -/
def runTrainingCell (episodes : List (Except PyExc (ℚ × ℚ))) :
    TrainMetrics × Option PyExc :=
  match trainEpisodes ⟨[], []⟩ episodes with
  | (m, some PyExc.keyboardInterrupt) => (m, none)
  | r => r

theorem trainEpisodes_append_ok (pre : List (ℚ × ℚ)) :
    ∀ (m : TrainMetrics) (rest : List (Except PyExc (ℚ × ℚ))),
      trainEpisodes m (pre.map Except.ok ++ rest) =
        trainEpisodes ⟨m.training_rewards ++ pre.map Prod.fst,
          m.losses ++ pre.map Prod.snd⟩ rest := by
  induction pre with
  | nil => intro m rest; simp
  | cons p ps ih =>
    intro m rest
    rcases p with ⟨r, l⟩
    simp only [List.map_cons, List.cons_append, trainEpisodes, List.append_eq]
    rw [ih]
    simp

/-- C4: if a `KeyboardInterrupt` escapes an episode, the training cell exits
without propagating it and the metrics collected so far are intact; any other
exception propagates unchanged (with the same partial metrics left behind). -/
theorem training_interrupt_handling (pre : List (ℚ × ℚ))
    (rest : List (Except PyExc (ℚ × ℚ))) :
    runTrainingCell
        (pre.map Except.ok ++ Except.error PyExc.keyboardInterrupt :: rest) =
      (⟨pre.map Prod.fst, pre.map Prod.snd⟩, none) ∧
    ∀ c, runTrainingCell
        (pre.map Except.ok ++ Except.error (PyExc.other c) :: rest) =
      (⟨pre.map Prod.fst, pre.map Prod.snd⟩, some (PyExc.other c)) := by
  constructor
  · simp [runTrainingCell, trainEpisodes_append_ok, trainEpisodes]
  · intro c
    simp [runTrainingCell, trainEpisodes_append_ok, trainEpisodes]

end PolicyGradient
